import Mathlib

/-!
Verification of the memory-analysis report parser and graph annotator in
src/cuda/src/playground/cudaGraphTest.cu.

The C++ code reads a semi-structured analysis report through a std::ifstream
and builds a map from function name to KernelInfo; a second pass walks the
nodes of a captured execution graph and annotates each pointer argument
with its declared effect and the pointer value read out of its raw
argument slot.

The embedding models the ifstream as a list of remaining characters plus a
fail flag (the failbit; eofbit alone does not make the C++ stream falsy and
is therefore not modelled separately).  Each stream primitive used by the
source is translated: formatted string extraction (operator>> into a
std::string), formatted unsigned extraction (operator>> into a size_t),
single-character read (istream::read with count 1).  The constructor loops
are translated with an explicit fuel argument; the fuel supplied by the
top-level entry points is one more than the number of remaining characters,
which is always sufficient because every loop iteration consumes at least
one character.  A process abort (the abort() calls) and the uncaught
std::out_of_range thrown by funcName.erase on a short token are modelled as
a reportFormatError result, matching the error taxonomy of the spec.
-/

namespace CudaGraphTest

/-- Whitespace as classified by the default C locale isspace, which is what
operator>> skipws uses: space, tab, newline, vertical tab, form feed,
carriage return. -/
def isWS (c : Char) : Bool :=
  c = ' ' || c = '\t' || c = '\n' || c = '\r' || c = '\x0b' || c = '\x0c'

/-- The state of the std::ifstream: the characters not yet consumed and the
failbit.  A stream on which opening the file failed starts with the failbit
set. -/
structure IStream where
  data : List Char
  failed : Bool
deriving DecidableEq

/-- Formatted extraction into a std::string (in >> s): skip whitespace, read
characters up to the next whitespace.  If no character is extracted the
failbit is set and the string is left empty. -/
def IStream.readToken (s : IStream) : String × IStream :=
  if s.failed then ("", s)
  else
    let d := s.data.dropWhile isWS
    let tok := d.takeWhile (fun c => !isWS c)
    if tok.isEmpty then ("", ⟨d, true⟩)
    else (⟨tok⟩, ⟨d.drop tok.length, false⟩)

/-- istream::read(&ch, 1): consume one character; at end of input the failbit
is set. -/
def IStream.read1 (s : IStream) : IStream :=
  if s.failed then s
  else
    match s.data with
    | [] => ⟨[], true⟩
    | _ :: rest => ⟨rest, false⟩

/-- Value of a digit string, most significant digit first; this is the value
the unsigned conversion of formatted extraction denotes on those digits. -/
def digitsVal (l : List Char) : Nat :=
  l.foldl (fun acc c => 10 * acc + (c.toNat - 48)) 0

/-- Formatted extraction into a size_t (in >> n): skip whitespace, read a
maximal run of digits.  If no digit is extracted the failbit is set and the
value is zero; if the digit field denotes a value outside the 64-bit size_t
range the whole field is still consumed but the failbit is set and the
value saturates to SIZE_MAX (the C++11 num_get behaviour). -/
def IStream.readNat (s : IStream) : Nat × IStream :=
  if s.failed then (0, s)
  else
    let d := s.data.dropWhile isWS
    let digs := d.takeWhile Char.isDigit
    if digs.isEmpty then (0, ⟨d, true⟩)
    else if digitsVal digs < 18446744073709551616 then
      (digitsVal digs, ⟨d.drop digs.length, false⟩)
    else (18446744073709551615, ⟨d.drop digs.length, true⟩)

/-- The size_t to int conversion performed when the extracted argument index
is stored into the pair<int, string>: reduce modulo 2^32 and interpret the
high bit as the sign (the two's complement behaviour gcc, clang and nvcc
give this implementation-defined conversion). -/
def narrowToInt (v : Nat) : Int :=
  if v % 4294967296 < 2147483648 then ((v % 4294967296 : Nat) : Int)
  else ((v % 4294967296 : Nat) : Int) - 4294967296

/-- The do/while loop that reads single characters until an at sign is
consumed; at end of input the failbit is set. -/
def scanAtAux : List Char → IStream
  | [] => ⟨[], true⟩
  | c :: rest => if c = '@' then ⟨rest, false⟩ else scanAtAux rest

/-- Scan forward to just past the next at sign (the character-read loop at
the top of the constructor body). -/
def IStream.scanAt (s : IStream) : IStream :=
  if s.failed then s else scanAtAux s.data

/-- MemRedAnalysisParser::KernelInfo.  Argument indices are ints in the
source (stored by narrowing the extracted size_t), modelled as Int via
narrowToInt. -/
structure KernelInfo where
  funcName : String
  memoryEffect : String
  ptrArgInfos : List (Int × String)
deriving DecidableEq

/-- Error taxonomy of the parser.  reportFormatError stands for the abort()
on an unexpected token and for the uncaught std::out_of_range thrown by
funcName.erase when the name token is shorter than two characters;
reportOpenError is the error the spec assigns to an unopenable file. -/
inductive ParseError where
  | reportOpenError
  | reportFormatError
deriving DecidableEq

/-- The std::map from function name to KernelInfo, modelled as an
association list with unique keys; insertion overwrites an existing key in
place, as std::map operator[] assignment does. -/
abbrev ReportTable := List (String × KernelInfo)

/-- funcNameToKernelInfoMap[k] = v: overwrite the entry if the key exists,
append otherwise. -/
def tableInsert (m : ReportTable) (k : String) (v : KernelInfo) : ReportTable :=
  if m.any (fun p => p.1 = k) then m.map (fun p => if p.1 = k then (k, v) else p)
  else m ++ [(k, v)]

/-- Key lookup in the table (map.count / map operator[] read). -/
def tableLookup (m : ReportTable) (k : String) : Option KernelInfo :=
  (m.find? (fun p => p.1 = k)).map (fun p => p.2)

/-- Body of one argument line after the Arg keyword has been matched:
two single-character reads (the space and the hash), the unsigned argument
index, two discarded tokens, the effect token, and two more discarded
tokens; returns the recorded pair — the index narrowed from size_t to int
as the pair construction does — and the stream that follows. -/
def argLineBody (s : IStream) : (Int × String) × IStream :=
  let sa := s.read1
  let sb := sa.read1
  let pIdx := sb.readNat
  let p1 := pIdx.2.readToken
  let p2 := p1.2.readToken
  let pEff := p2.2.readToken
  let p3 := pEff.2.readToken
  let p4 := p3.2.readToken
  ((narrowToInt pIdx.1, pEff.1), p4.2)

/-- The inner while loop of the constructor: read a token; stop (without
error) on the Function keyword or on a failed stream; abort on any other
token that is not Arg; otherwise process one argument line and continue.
The fuel argument bounds the number of iterations; every iteration that
recurses has consumed at least one character, so any fuel exceeding the
stream length is sufficient and the zero-fuel branch is unreachable from
the entry points below. -/
def argLoopF : Nat → IStream → List (Int × String) →
    Except ParseError (List (Int × String) × IStream)
  | 0, _, _ => .error .reportFormatError
  | n + 1, s, acc =>
    let p := s.readToken
    if p.1 = "Function" ∨ p.2.failed = true then .ok (acc, p.2)
    else if p.1 ≠ "Arg" then .error .reportFormatError
    else
      let pr := argLineBody p.2
      argLoopF n pr.2 (acc ++ [pr.1])

/-- The outer while loop of the constructor: scan to the next at sign, read
the name token, strip its last two characters (funcName.erase throws, here
reportFormatError, when the token is shorter than two characters), read and
discard two tokens, read the memory effect, run the argument-line loop, and
insert the completed KernelInfo under the stripped name before testing the
stream again.  Fuel as in argLoopF. -/
def parseLoopF : Nat → IStream → ReportTable → Except ParseError ReportTable
  | 0, _, _ => .error .reportFormatError
  | n + 1, s, m =>
    if s.failed then .ok m
    else
      let s1 := s.scanAt
      if s1.failed then .ok m
      else
        let pName := s1.readToken
        if pName.1.length < 2 then .error .reportFormatError
        else
          let funcName : String := ⟨pName.1.data.take (pName.1.length - 2)⟩
          let pi1 := pName.2.readToken
          let pi2 := pi1.2.readToken
          let pEff := pi2.2.readToken
          match argLoopF (pEff.2.data.length + 1) pEff.2 [] with
          | .error e => .error e
          | .ok pr =>
            parseLoopF n pr.2
              (tableInsert m funcName ⟨funcName, pEff.1, pr.1⟩)

/-- MemRedAnalysisParser::MemRedAnalysisParser as a pure function: openOk
tells whether opening the analysis file succeeded (an unopenable ifstream
starts with the failbit set), content is the text of the file. -/
def MemRedAnalysisParser (openOk : Bool) (content : String) :
    Except ParseError ReportTable :=
  parseLoopF (content.data.length + 1) ⟨content.data, !openOk⟩ []

/-- The runtime memory: loadPtr reads a pointer-sized word at an address
(the one dereference the annotator performs through the int** cast);
loadInt reads a 4-byte integer at an address.  The annotator itself only
ever calls loadPtr — loadInt is part of the memory model solely so that
scenarios about what a pointer argument points to can be stated. -/
structure Memory where
  loadPtr : Nat → Nat
  loadInt : Nat → Int

/-- One kernel-launch node of the captured graph: the function name that
cudaFuncGetName resolves for it, and the raw argument-slot array
params.kernelParams, mapping a slot index to the address of that slot's
argument storage.  The source indexes the array with the int from the
report, unchecked, so the map is total over Int. -/
structure KernelNode where
  funcName : String
  kernelParams : Int → Nat

/-- One block of annotator output for one node; each per-argument value is
the pointer read out of the argument slot (streamed as a void pointer by
the source). -/
structure NodeReport where
  nodeOrdinal : Nat
  funcName : String
  perArgument : List (Int × String × Nat)
deriving DecidableEq

/-- Error taxonomy of the annotator: the abort() after the failed map
lookup, carrying the unresolved name. -/
inductive AnnotateError where
  | unknownKernelError (name : String)
deriving DecidableEq

/-- Per-node body of analyzeGraph: resolve the name, look it up, and for
each recorded (index, effect) read the raw slot at that index, reinterpret
it as int** and dereference once, recording the pointer so obtained (the
streamed value of line 117 of the source; the pointed-to integer is never
loaded). -/
def annotateNode (table : ReportTable) (mem : Memory) (i : Nat)
    (node : KernelNode) : Except AnnotateError NodeReport :=
  match tableLookup table node.funcName with
  | none => .error (.unknownKernelError node.funcName)
  | some kernelInfo =>
    .ok ⟨i, kernelInfo.funcName,
      kernelInfo.ptrArgInfos.map (fun p =>
        (p.1, p.2, mem.loadPtr (node.kernelParams p.1)))⟩

/-- The node loop of analyzeGraph, carrying the node ordinal. -/
def analyzeGraphAux (table : ReportTable) (mem : Memory) :
    Nat → List KernelNode → Except AnnotateError (List NodeReport)
  | _, [] => .ok []
  | i, node :: rest =>
    match annotateNode table mem i node with
    | .error e => .error e
    | .ok r =>
      match analyzeGraphAux table mem (i + 1) rest with
      | .error e => .error e
      | .ok rs => .ok (r :: rs)

/-- analyzeGraph, parametrised over the already-built table (the source
builds the MemRedAnalysisParser inline), the memory, and the node list
returned by cudaGraphGetNodes. -/
def analyzeGraph (table : ReportTable) (mem : Memory)
    (nodes : List KernelNode) : Except AnnotateError (List NodeReport) :=
  analyzeGraphAux table mem 0 nodes

/-- Well-formedness of a symbolic argument-line payload: a nonempty digit
string, denoting a value inside the size_t range (so that extraction
succeeds), for the index, and a nonempty whitespace-free token for the
effect. -/
def wfArgs (args : List (List Char × List Char)) : Prop :=
  ∀ a ∈ args, (a.1 ≠ [] ∧ a.1.all Char.isDigit = true ∧
      digitsVal a.1 < 18446744073709551616) ∧
    (a.2 ≠ [] ∧ a.2.all (fun c => !isWS c) = true)

instance (args : List (List Char × List Char)) : Decidable (wfArgs args) := by
  unfold wfArgs
  infer_instance

/-- One rendered argument line of the report, with symbolic index digits d
and effect token e, in the exact shape of the sample data the source is
written against. -/
def renderArgLine (d e : List Char) : List Char :=
  'A' :: 'r' :: 'g' :: ' ' :: '#' ::
    (d ++ (':' :: '\t' :: 'E' :: 'f' :: 'f' :: 'e' :: 'c' :: 't' :: ':' :: ' ' ::
      (e ++ (' ' :: ' ' :: 'C' :: 'a' :: 'p' :: 't' :: 'u' :: 'r' :: 'e' :: ':' ::
        ' ' :: 'N' :: 'o' :: '\n' :: []))))

/-- Concatenation of rendered argument lines. -/
def argsRender (args : List (List Char × List Char)) : List Char :=
  args.foldr (fun a acc => renderArgLine a.1 a.2 ++ acc) []

/-- The part of a rendered function block that follows the at sign: the
name token T, a newline, the Memory Effect header, the effect token e, and
then rest (a newline followed by argument lines and whatever comes next). -/
def afterAt (T e rest : List Char) : List Char :=
  T ++ ('\n' :: 'M' :: 'e' :: 'm' :: 'o' :: 'r' :: 'y' :: ' ' ::
    'E' :: 'f' :: 'f' :: 'e' :: 'c' :: 't' :: ':' :: ' ' :: (e ++ ('\n' :: rest)))

/-- A rendered block minus its leading Function keyword: filler text, the
at sign, and the block body for function name f, effect e. -/
def blockTail (f e rest : List Char) : List Char :=
  ' ' :: 'x' :: ' ' :: '(' :: '@' :: afterAt (f ++ [')', ':']) e rest

/-- A fully rendered function block: the Function keyword, filler, the at
sign, the name token f followed by the two closing characters the parser
strips, the effect header, and the rendered argument lines; rest is the
remainder of the report (empty, or the next rendered block). -/
def renderBlock1 (f e : List Char) (args : List (List Char × List Char))
    (rest : List Char) : List Char :=
  'F' :: 'u' :: 'n' :: 'c' :: 't' :: 'i' :: 'o' :: 'n' ::
    blockTail f e (argsRender args ++ rest)

/-- Modelled from the spec, claims C8 wording only: the argument-line body
as the spec describes it, which after the effect token discards two tokens
and then one further token (the yes/no value) — one token more than the
source consumes.  Used solely to compare the claimed consumption with the
source consumption. -/
def argLineBodyClaimed (s : IStream) : (Int × String) × IStream :=
  let sa := s.read1
  let sb := sa.read1
  let pIdx := sb.readNat
  let p1 := pIdx.2.readToken
  let p2 := p1.2.readToken
  let pEff := p2.2.readToken
  let p3 := pEff.2.readToken
  let p4 := p3.2.readToken
  let p5 := p4.2.readToken
  ((narrowToInt pIdx.1, pEff.1), p5.2)

/-- The inner loop built on the claimed argument-line body; identical to
argLoopF otherwise. -/
def argLoopClaimedF : Nat → IStream → List (Int × String) →
    Except ParseError (List (Int × String) × IStream)
  | 0, _, _ => .error .reportFormatError
  | n + 1, s, acc =>
    let p := s.readToken
    if p.1 = "Function" ∨ p.2.failed = true then .ok (acc, p.2)
    else if p.1 ≠ "Arg" then .error .reportFormatError
    else
      let pr := argLineBodyClaimed p.2
      argLoopClaimedF n pr.2 (acc ++ [pr.1])

/-- The outer loop built on the claimed inner loop; identical to parseLoopF
otherwise. -/
def parseLoopClaimedF : Nat → IStream → ReportTable → Except ParseError ReportTable
  | 0, _, _ => .error .reportFormatError
  | n + 1, s, m =>
    if s.failed then .ok m
    else
      let s1 := s.scanAt
      if s1.failed then .ok m
      else
        let pName := s1.readToken
        if pName.1.length < 2 then .error .reportFormatError
        else
          let funcName : String := ⟨pName.1.data.take (pName.1.length - 2)⟩
          let pi1 := pName.2.readToken
          let pi2 := pi1.2.readToken
          let pEff := pi2.2.readToken
          match argLoopClaimedF (pEff.2.data.length + 1) pEff.2 [] with
          | .error e => .error e
          | .ok pr =>
            parseLoopClaimedF n pr.2
              (tableInsert m funcName ⟨funcName, pEff.1, pr.1⟩)

/-- The parser as the spec words of claim C8 would have it. -/
def MemRedAnalysisParserClaimed (openOk : Bool) (content : String) :
    Except ParseError ReportTable :=
  parseLoopClaimedF (content.data.length + 1) ⟨content.data, !openOk⟩ []

/-! ### Lemmas about the stream primitives -/

theorem dropWhile_ws_append (w l : List Char) (hw : w.all isWS = true) :
    (w ++ l).dropWhile isWS = l.dropWhile isWS := by
  induction w with
  | nil => simp
  | cons c t ih =>
    simp only [List.all_cons, Bool.and_eq_true] at hw
    simp [List.dropWhile_cons, hw.1, ih hw.2]

theorem dropWhile_ws_nil (l : List Char) (h : l.all isWS = true) :
    l.dropWhile isWS = [] := by
  induction l with
  | nil => simp
  | cons c t ih =>
    simp only [List.all_cons, Bool.and_eq_true] at h
    simp [List.dropWhile_cons, h.1, ih h.2]

theorem takeWhile_append_stop (p : Char → Bool) (t r : List Char)
    (ht : t.all p = true) (hr : r.takeWhile p = []) :
    (t ++ r).takeWhile p = t := by
  induction t with
  | nil => simpa using hr
  | cons c ts ih =>
    simp only [List.all_cons, Bool.and_eq_true] at ht
    simp [List.takeWhile_cons, ht.1, ih ht.2]

theorem isDigit_not_ws (c : Char) (h : c.isDigit = true) : isWS c = false := by
  cases hws : isWS c with
  | false => rfl
  | true =>
    exfalso
    simp only [isWS, Bool.or_eq_true, decide_eq_true_eq, or_assoc] at hws
    rcases hws with rfl | rfl | rfl | rfl | rfl | rfl <;> exact absurd h (by decide)

/-- Formatted string extraction on a stream that starts with optional
whitespace, a nonempty whitespace-free token, and a rest whose first
character (if any) is not part of the token. -/
theorem readToken_eq (w t r : List Char) (hw : w.all isWS = true)
    (ht0 : t ≠ []) (ht : t.all (fun c => !isWS c) = true)
    (hr : r.takeWhile (fun c => !isWS c) = []) :
    IStream.readToken ⟨w ++ (t ++ r), false⟩ = (⟨t⟩, ⟨r, false⟩) := by
  obtain ⟨c, ts, rfl⟩ : ∃ c ts, t = c :: ts := by
    cases t with
    | nil => exact absurd rfl ht0
    | cons c ts => exact ⟨c, ts, rfl⟩
  have hc : isWS c = false := by
    simp only [List.all_cons, Bool.and_eq_true, Bool.not_eq_true'] at ht
    exact ht.1
  have hdrop : ((c :: ts) ++ r).dropWhile isWS = (c :: ts) ++ r := by
    simp [List.dropWhile_cons, hc]
  have htake : ((c :: ts) ++ r).takeWhile (fun c => !isWS c) = c :: ts :=
    takeWhile_append_stop _ _ _ ht hr
  simp only [List.cons_append] at hdrop htake
  simp only [IStream.readToken, Bool.false_eq_true, if_false,
    dropWhile_ws_append _ _ hw, List.cons_append, hdrop, htake,
    List.isEmpty_cons, List.length_cons, List.drop_succ_cons,
    List.drop_left]

/-- Formatted string extraction fails, setting the failbit, when only
whitespace remains. -/
theorem readToken_fail (l : List Char) (h : l.all isWS = true) :
    IStream.readToken ⟨l, false⟩ = ("", ⟨[], true⟩) := by
  simp [IStream.readToken, dropWhile_ws_nil l h]

/-- Formatted unsigned extraction on optional whitespace, a nonempty digit
run whose value fits in size_t, and a rest that does not begin with a
digit. -/
theorem readNat_eq (w d r : List Char) (hw : w.all isWS = true)
    (hd0 : d ≠ []) (hd : d.all Char.isDigit = true)
    (hdv : digitsVal d < 18446744073709551616)
    (hr : r.takeWhile Char.isDigit = []) :
    IStream.readNat ⟨w ++ (d ++ r), false⟩ = (digitsVal d, ⟨r, false⟩) := by
  obtain ⟨c, ds, rfl⟩ : ∃ c ds, d = c :: ds := by
    cases d with
    | nil => exact absurd rfl hd0
    | cons c ds => exact ⟨c, ds, rfl⟩
  have hcd : c.isDigit = true := by
    simp only [List.all_cons, Bool.and_eq_true] at hd
    exact hd.1
  have hdrop : ((c :: ds) ++ r).dropWhile isWS = (c :: ds) ++ r := by
    simp [List.dropWhile_cons, isDigit_not_ws c hcd]
  have htake : ((c :: ds) ++ r).takeWhile Char.isDigit = c :: ds :=
    takeWhile_append_stop _ _ _ hd hr
  simp only [List.cons_append] at hdrop htake
  simp only [IStream.readNat, Bool.false_eq_true, if_false,
    dropWhile_ws_append _ _ hw, List.cons_append, hdrop, htake,
    List.isEmpty_cons, List.length_cons, List.drop_succ_cons,
    List.drop_left, if_pos hdv]

/-- Below 2^31 the size_t to int narrowing is the identity. -/
theorem narrowToInt_small (v : Nat) (h : v < 2147483648) :
    narrowToInt v = (v : Int) := by
  unfold narrowToInt
  rw [Nat.mod_eq_of_lt (by omega), if_pos h]

theorem read1_eq (c : Char) (l : List Char) :
    IStream.read1 ⟨c :: l, false⟩ = ⟨l, false⟩ := rfl

theorem scanAtAux_eq (pre r : List Char) (h : '@' ∉ pre) :
    scanAtAux (pre ++ '@' :: r) = ⟨r, false⟩ := by
  induction pre with
  | nil => simp [scanAtAux]
  | cons c t ih =>
    simp only [List.mem_cons, not_or] at h
    simp [scanAtAux, Ne.symm h.1, ih h.2]

theorem scanAt_eq (pre r : List Char) (h : '@' ∉ pre) :
    IStream.scanAt ⟨pre ++ '@' :: r, false⟩ = ⟨r, false⟩ := by
  simp [IStream.scanAt, scanAtAux_eq pre r h]

theorem argsRender_nil : argsRender [] = [] := rfl

theorem argsRender_cons (d e : List Char) (args : List (List Char × List Char)) :
    argsRender ((d, e) :: args) = renderArgLine d e ++ argsRender args := rfl

theorem tw_ws_cons (c : Char) (l : List Char) (h : isWS c = true) :
    (c :: l).takeWhile (fun x => !isWS x) = [] := by
  simp [List.takeWhile_cons, h]

theorem tw_digit_cons (c : Char) (l : List Char) (h : c.isDigit = false) :
    (c :: l).takeWhile Char.isDigit = [] := by
  simp [List.takeWhile_cons, h]

/-! ### Lemmas about the argument-line loop -/

/-- The inner loop stops without error when only whitespace remains: the
token extraction fails, which the source treats as the end of the block. -/
theorem argLoopF_ws_end (l : List Char) (acc : List (Int × String)) (fuel : Nat)
    (h : l.all isWS = true) (hf : 0 < fuel) :
    argLoopF fuel ⟨l, false⟩ acc = .ok (acc, ⟨[], true⟩) := by
  cases fuel with
  | zero => omega
  | succ n => simp [argLoopF, readToken_fail l h]

/-- The inner loop stops without error on the Function keyword, consuming
it. -/
theorem argLoopF_function_end (w r : List Char) (acc : List (Int × String))
    (fuel : Nat) (hw : w.all isWS = true)
    (hr : r.takeWhile (fun c => !isWS c) = []) (hf : 0 < fuel) :
    argLoopF fuel
      ⟨w ++ ('F' :: 'u' :: 'n' :: 'c' :: 't' :: 'i' :: 'o' :: 'n' :: r), false⟩ acc
      = .ok (acc, ⟨r, false⟩) := by
  cases fuel with
  | zero => omega
  | succ n =>
    have h := readToken_eq w ['F', 'u', 'n', 'c', 't', 'i', 'o', 'n'] r
      hw (by decide) (by decide) hr
    simp only [List.cons_append, List.nil_append] at h
    simp [argLoopF, h]

/-- The inner loop aborts on any other token. -/
theorem argLoopF_bad_end (w bad r : List Char) (acc : List (Int × String))
    (fuel : Nat) (hw : w.all isWS = true) (hb0 : bad ≠ [])
    (hb : bad.all (fun c => !isWS c) = true)
    (hr : r.takeWhile (fun c => !isWS c) = [])
    (hb1 : (⟨bad⟩ : String) ≠ "Function") (hb2 : (⟨bad⟩ : String) ≠ "Arg")
    (hf : 0 < fuel) :
    argLoopF fuel ⟨w ++ (bad ++ r), false⟩ acc = .error .reportFormatError := by
  cases fuel with
  | zero => omega
  | succ n =>
    have h := readToken_eq w bad r hw hb0 hb hr
    simp [argLoopF, h, hb1, hb2]

/-- The argument-line body on a rendered line: consumes the space and hash,
the digits, the four framing tokens and the effect token, leaving the
newline that ends the line, and records the index value and the effect. -/
theorem argLineBody_render (d e X : List Char) (hd0 : d ≠ [])
    (hd : d.all Char.isDigit = true)
    (hdv : digitsVal d < 18446744073709551616) (he0 : e ≠ [])
    (he : e.all (fun c => !isWS c) = true) :
    argLineBody ⟨' ' :: '#' ::
      (d ++ (':' :: '\t' :: 'E' :: 'f' :: 'f' :: 'e' :: 'c' :: 't' :: ':' :: ' ' ::
        (e ++ (' ' :: ' ' :: 'C' :: 'a' :: 'p' :: 't' :: 'u' :: 'r' :: 'e' :: ':' ::
          ' ' :: 'N' :: 'o' :: '\n' :: X)))), false⟩
      = ((narrowToInt (digitsVal d), ⟨e⟩), ⟨'\n' :: X, false⟩) := by
  have hNat := readNat_eq [] d
    (':' :: '\t' :: 'E' :: 'f' :: 'f' :: 'e' :: 'c' :: 't' :: ':' :: ' ' ::
      (e ++ (' ' :: ' ' :: 'C' :: 'a' :: 'p' :: 't' :: 'u' :: 'r' :: 'e' :: ':' ::
        ' ' :: 'N' :: 'o' :: '\n' :: X)))
    (by decide) hd0 hd hdv (tw_digit_cons ':' _ (by decide))
  simp only [List.nil_append] at hNat
  have h1 := readToken_eq [] [':']
    ('\t' :: 'E' :: 'f' :: 'f' :: 'e' :: 'c' :: 't' :: ':' :: ' ' ::
      (e ++ (' ' :: ' ' :: 'C' :: 'a' :: 'p' :: 't' :: 'u' :: 'r' :: 'e' :: ':' ::
        ' ' :: 'N' :: 'o' :: '\n' :: X)))
    (by decide) (by decide) (by decide) (tw_ws_cons '\t' _ (by decide))
  simp only [List.nil_append, List.cons_append] at h1
  have h2 := readToken_eq ['\t'] ['E', 'f', 'f', 'e', 'c', 't', ':']
    (' ' :: (e ++ (' ' :: ' ' :: 'C' :: 'a' :: 'p' :: 't' :: 'u' :: 'r' :: 'e' :: ':' ::
      ' ' :: 'N' :: 'o' :: '\n' :: X)))
    (by decide) (by decide) (by decide) (tw_ws_cons ' ' _ (by decide))
  simp only [List.cons_append, List.nil_append] at h2
  have h3 := readToken_eq [' '] e
    (' ' :: ' ' :: 'C' :: 'a' :: 'p' :: 't' :: 'u' :: 'r' :: 'e' :: ':' ::
      ' ' :: 'N' :: 'o' :: '\n' :: X)
    (by decide) he0 he (tw_ws_cons ' ' _ (by decide))
  simp only [List.cons_append, List.nil_append] at h3
  have h4 := readToken_eq [' ', ' '] ['C', 'a', 'p', 't', 'u', 'r', 'e', ':']
    (' ' :: 'N' :: 'o' :: '\n' :: X)
    (by decide) (by decide) (by decide) (tw_ws_cons ' ' _ (by decide))
  simp only [List.cons_append, List.nil_append] at h4
  have h5 := readToken_eq [' '] ['N', 'o'] ('\n' :: X)
    (by decide) (by decide) (by decide) (tw_ws_cons '\n' _ (by decide))
  simp only [List.cons_append, List.nil_append] at h5
  simp only [argLineBody, read1_eq, hNat, h1, h2, h3, h4, h5]

/-- The inner loop over a sequence of rendered argument lines, preceded by
optional whitespace and followed by a remainder whose behaviour is given by
the continuation hypothesis: it appends one (index, effect) pair per line,
in order. -/
theorem argLoopF_args (args : List (List Char × List Char)) :
    ∀ (fuel : Nat) (w rest : List Char) (acc : List (Int × String))
      (sAfter : IStream) (out : Except ParseError (List (Int × String) × IStream)),
    wfArgs args → args.length < fuel → w.all isWS = true →
    (∀ (fuel2 : Nat) (acc2 : List (Int × String)) (w2 : List Char), 0 < fuel2 →
        w2.all isWS = true →
        argLoopF fuel2 ⟨w2 ++ rest, false⟩ acc2 = .ok (acc2, sAfter)) →
    out = .ok (acc ++ args.map
      (fun a => (narrowToInt (digitsVal a.1), (⟨a.2⟩ : String))), sAfter) →
    argLoopF fuel ⟨w ++ (argsRender args ++ rest), false⟩ acc = out := by
  induction args with
  | nil =>
    intro fuel w rest acc sAfter out _ hfuel hw H hout
    simp only [argsRender_nil, List.nil_append, List.map_nil,
      List.append_nil] at hout ⊢
    rw [hout]
    exact H fuel acc w (by omega) hw
  | cons a args ih =>
    intro fuel w rest acc sAfter out hwf hfuel hw H hout
    obtain ⟨d, e⟩ := a
    have hwfa := hwf (d, e) (List.mem_cons_self _ _)
    have hwfr : wfArgs args := fun x hx => hwf x (List.mem_cons_of_mem _ hx)
    cases fuel with
    | zero => simp at hfuel
    | succ n =>
      simp only [argsRender_cons, renderArgLine, List.cons_append,
        List.append_assoc, List.nil_append]
      have hTok := readToken_eq w ['A', 'r', 'g']
        (' ' :: '#' ::
          (d ++ (':' :: '\t' :: 'E' :: 'f' :: 'f' :: 'e' :: 'c' :: 't' :: ':' :: ' ' ::
            (e ++ (' ' :: ' ' :: 'C' :: 'a' :: 'p' :: 't' :: 'u' :: 'r' :: 'e' :: ':' ::
              ' ' :: 'N' :: 'o' :: '\n' :: (argsRender args ++ rest))))))
        hw (by decide) (by decide) (tw_ws_cons ' ' _ (by decide))
      simp only [List.cons_append, List.nil_append] at hTok
      have hBody := argLineBody_render d e (argsRender args ++ rest)
        hwfa.1.1 hwfa.1.2.1 hwfa.1.2.2 hwfa.2.1 hwfa.2.2
      simp only [argLoopF, hTok, hBody]
      simp only [List.map_cons] at hout
      rw [if_neg (by decide), if_neg (by decide)]
      exact ih n ['\n'] rest (acc ++ [(narrowToInt (digitsVal d), (⟨e⟩ : String))])
        sAfter out
        hwfr (by simp only [List.length_cons] at hfuel; omega) (by decide) H
        (by simpa [List.append_assoc] using hout)

/-! ### Lemmas about the outer loop -/

/-- The outer loop returns the accumulated table as soon as the stream has
failed. -/
theorem parseLoopF_failed (n : Nat) (l : List Char) (m : ReportTable) :
    parseLoopF (n + 1) ⟨l, true⟩ m = .ok m := by
  simp [parseLoopF]

/-- One block header: scanning to the at sign, reading the name token,
stripping its last two characters, discarding the Memory and Effect tokens
and reading the effect token reduces the outer loop to the inner loop on
the remaining characters followed by the insertion and the next round. -/
theorem parseLoopF_header (n : Nat) (m : ReportTable) (pre T e rest : List Char)
    (hpre : '@' ∉ pre) (hT2 : 2 ≤ T.length)
    (hT : T.all (fun c => !isWS c) = true)
    (he0 : e ≠ []) (he : e.all (fun c => !isWS c) = true) :
    parseLoopF (n + 1) ⟨pre ++ '@' :: afterAt T e rest, false⟩ m
      = (match argLoopF (rest.length + 1 + 1) ⟨'\n' :: rest, false⟩ [] with
         | .error er => .error er
         | .ok pr => parseLoopF n pr.2
             (tableInsert m ⟨T.take (T.length - 2)⟩
               ⟨⟨T.take (T.length - 2)⟩, ⟨e⟩, pr.1⟩)) := by
  have hT0 : T ≠ [] := by
    intro h
    rw [h] at hT2
    exact absurd hT2 (by decide)
  have hScan := scanAt_eq pre (afterAt T e rest) hpre
  have hTk := readToken_eq [] T
    ('\n' :: 'M' :: 'e' :: 'm' :: 'o' :: 'r' :: 'y' :: ' ' ::
      'E' :: 'f' :: 'f' :: 'e' :: 'c' :: 't' :: ':' :: ' ' :: (e ++ ('\n' :: rest)))
    (by decide) hT0 hT (tw_ws_cons '\n' _ (by decide))
  simp only [List.nil_append] at hTk
  have hM := readToken_eq ['\n'] ['M', 'e', 'm', 'o', 'r', 'y']
    (' ' :: 'E' :: 'f' :: 'f' :: 'e' :: 'c' :: 't' :: ':' :: ' ' ::
      (e ++ ('\n' :: rest)))
    (by decide) (by decide) (by decide) (tw_ws_cons ' ' _ (by decide))
  simp only [List.cons_append, List.nil_append] at hM
  have hE := readToken_eq [' '] ['E', 'f', 'f', 'e', 'c', 't', ':']
    (' ' :: (e ++ ('\n' :: rest)))
    (by decide) (by decide) (by decide) (tw_ws_cons ' ' _ (by decide))
  simp only [List.cons_append, List.nil_append] at hE
  have hEff := readToken_eq [' '] e ('\n' :: rest)
    (by decide) he0 he (tw_ws_cons '\n' _ (by decide))
  simp only [List.cons_append, List.nil_append] at hEff
  simp only [afterAt] at hScan
  simp only [parseLoopF, afterAt, hScan, hTk, hM, hE, hEff]
  rw [if_neg (show ¬(false = true) by decide),
    if_neg (show ¬(false = true) by decide),
    if_neg (show ¬((⟨T⟩ : String).length < 2) by simp only [String.length]; omega)]
  simp

theorem argsRender_length_ge (args : List (List Char × List Char)) :
    args.length ≤ (argsRender args).length := by
  induction args with
  | nil => simp [argsRender_nil]
  | cons a args ih =>
    obtain ⟨d, e⟩ := a
    simp only [argsRender_cons, renderArgLine, List.length_append,
      List.length_cons]
    omega

theorem parseLoopF_pos_failed (n : Nat) (l : List Char) (m : ReportTable)
    (hn : 0 < n) : parseLoopF n ⟨l, true⟩ m = .ok m := by
  cases n with
  | zero => omega
  | succ k => exact parseLoopF_failed k l m

theorem tableInsert_nil (k : String) (v : KernelInfo) :
    tableInsert [] k v = [(k, v)] := by
  simp [tableInsert]

/-- One block processed by the outer loop, for an arbitrary at-sign-free
filler before the at sign and an arbitrary name token of length at least
two: the block's KernelInfo, keyed by the token minus its last two
characters, is inserted and the loop continues on the stream state the
argument-line loop left behind on the remainder. -/
theorem parseLoopF_block_tok (n : Nat) (m : ReportTable) (pre T e : List Char)
    (args : List (List Char × List Char)) (rest : List Char) (sAfter : IStream)
    (hpre : '@' ∉ pre) (hT2 : 2 ≤ T.length)
    (hT : T.all (fun c => !isWS c) = true)
    (he0 : e ≠ []) (he : e.all (fun c => !isWS c) = true)
    (hargs : wfArgs args)
    (H : ∀ (fuel2 : Nat) (acc2 : List (Int × String)) (w2 : List Char),
      0 < fuel2 → w2.all isWS = true →
      argLoopF fuel2 ⟨w2 ++ rest, false⟩ acc2 = .ok (acc2, sAfter)) :
    parseLoopF (n + 1)
      ⟨pre ++ '@' :: afterAt T e (argsRender args ++ rest), false⟩ m
      = parseLoopF n sAfter
          (tableInsert m ⟨T.take (T.length - 2)⟩
            ⟨⟨T.take (T.length - 2)⟩, ⟨e⟩,
              args.map (fun a => (narrowToInt (digitsVal a.1), (⟨a.2⟩ : String)))⟩) := by
  have hHdr := parseLoopF_header n m pre T e (argsRender args ++ rest)
    hpre hT2 hT he0 he
  have hArgs := argLoopF_args args ((argsRender args ++ rest).length + 1 + 1)
    ['\n'] rest [] sAfter
    (.ok (args.map (fun a => (narrowToInt (digitsVal a.1), (⟨a.2⟩ : String))), sAfter))
    hargs
    (by
      have := argsRender_length_ge args
      simp only [List.length_append]
      omega)
    (by decide) H (by simp)
  simp only [List.cons_append, List.nil_append] at hArgs
  rw [hHdr, hArgs]

/-- parseLoopF_block_tok specialised to the rendered name token
f ++ close-paren ++ colon, whose stripped form is f itself. -/
theorem parseLoopF_block_pre (n : Nat) (m : ReportTable) (pre f e : List Char)
    (args : List (List Char × List Char)) (rest : List Char) (sAfter : IStream)
    (hpre : '@' ∉ pre)
    (hf : f.all (fun c => !isWS c) = true)
    (he0 : e ≠ []) (he : e.all (fun c => !isWS c) = true)
    (hargs : wfArgs args)
    (H : ∀ (fuel2 : Nat) (acc2 : List (Int × String)) (w2 : List Char),
      0 < fuel2 → w2.all isWS = true →
      argLoopF fuel2 ⟨w2 ++ rest, false⟩ acc2 = .ok (acc2, sAfter)) :
    parseLoopF (n + 1)
      ⟨pre ++ '@' :: afterAt (f ++ [')', ':']) e (argsRender args ++ rest), false⟩ m
      = parseLoopF n sAfter
          (tableInsert m ⟨f⟩
            ⟨⟨f⟩, ⟨e⟩, args.map (fun a => (narrowToInt (digitsVal a.1), (⟨a.2⟩ : String)))⟩) := by
  have hT : (f ++ [')', ':']).all (fun c => !isWS c) = true := by
    simp only [List.all_append, Bool.and_eq_true]
    exact ⟨hf, by decide⟩
  have hT2 : 2 ≤ (f ++ [')', ':']).length := by
    simp [List.length_append]
  have h := parseLoopF_block_tok n m pre (f ++ [')', ':']) e args rest sAfter
    hpre hT2 hT he0 he hargs H
  have hlen : (f ++ [')', ':']).length - 2 = f.length := by
    simp [List.length_append]
  simpa only [hlen, List.take_left] using h

/-- parseLoopF_block_pre specialised to a fully rendered block. -/
theorem parseLoopF_renderBlock (n : Nat) (m : ReportTable) (f e : List Char)
    (args : List (List Char × List Char)) (rest : List Char) (sAfter : IStream)
    (hf : f.all (fun c => !isWS c) = true)
    (he0 : e ≠ []) (he : e.all (fun c => !isWS c) = true)
    (hargs : wfArgs args)
    (H : ∀ (fuel2 : Nat) (acc2 : List (Int × String)) (w2 : List Char),
      0 < fuel2 → w2.all isWS = true →
      argLoopF fuel2 ⟨w2 ++ rest, false⟩ acc2 = .ok (acc2, sAfter)) :
    parseLoopF (n + 1) ⟨renderBlock1 f e args rest, false⟩ m
      = parseLoopF n sAfter
          (tableInsert m ⟨f⟩
            ⟨⟨f⟩, ⟨e⟩, args.map (fun a => (narrowToInt (digitsVal a.1), (⟨a.2⟩ : String)))⟩) := by
  have h := parseLoopF_block_pre n m
    ['F', 'u', 'n', 'c', 't', 'i', 'o', 'n', ' ', 'x', ' ', '(']
    f e args rest sAfter (by decide) hf he0 he hargs H
  simp only [List.cons_append, List.nil_append] at h
  simpa only [renderBlock1, blockTail] using h

/-- parseLoopF_block_pre specialised to a block whose Function keyword has
already been consumed by the previous block's argument-line loop. -/
theorem parseLoopF_blockTail (n : Nat) (m : ReportTable) (f e : List Char)
    (args : List (List Char × List Char)) (rest : List Char) (sAfter : IStream)
    (hf : f.all (fun c => !isWS c) = true)
    (he0 : e ≠ []) (he : e.all (fun c => !isWS c) = true)
    (hargs : wfArgs args)
    (H : ∀ (fuel2 : Nat) (acc2 : List (Int × String)) (w2 : List Char),
      0 < fuel2 → w2.all isWS = true →
      argLoopF fuel2 ⟨w2 ++ rest, false⟩ acc2 = .ok (acc2, sAfter)) :
    parseLoopF (n + 1) ⟨blockTail f e (argsRender args ++ rest), false⟩ m
      = parseLoopF n sAfter
          (tableInsert m ⟨f⟩
            ⟨⟨f⟩, ⟨e⟩, args.map (fun a => (narrowToInt (digitsVal a.1), (⟨a.2⟩ : String)))⟩) := by
  have h := parseLoopF_block_pre n m [' ', 'x', ' ', '(']
    f e args rest sAfter (by decide) hf he0 he hargs H
  simp only [List.cons_append, List.nil_append] at h
  simpa only [blockTail] using h

theorem blockTail_tw (f e rest : List Char) :
    (blockTail f e rest).takeWhile (fun c => !isWS c) = [] := by
  simp only [blockTail]
  exact tw_ws_cons ' ' _ (by decide)

theorem ws_not_digit (c : Char) (h : isWS c = true) : c.isDigit = false := by
  cases hd : c.isDigit with
  | false => rfl
  | true => rw [isDigit_not_ws c hd] at h; exact absurd h (by decide)

theorem tw_tok_of_ws_head (w l : List Char) (hw0 : w ≠ [])
    (hw : w.all isWS = true) :
    (w ++ l).takeWhile (fun c => !isWS c) = [] := by
  cases w with
  | nil => exact absurd rfl hw0
  | cons c t =>
    simp only [List.all_cons, Bool.and_eq_true] at hw
    simp [List.takeWhile_cons, hw.1]

theorem tw_digit_of_ws_head (w l : List Char) (hw0 : w ≠ [])
    (hw : w.all isWS = true) :
    (w ++ l).takeWhile Char.isDigit = [] := by
  cases w with
  | nil => exact absurd rfl hw0
  | cons c t =>
    simp only [List.all_cons, Bool.and_eq_true] at hw
    simp [List.takeWhile_cons, ws_not_digit c hw.1]

/-- A block whose token after the effect header is neither Arg nor Function
makes the whole parse abort. -/
theorem parseLoopF_badBlock (n : Nat) (m : ReportTable) (pre T e bad : List Char)
    (hpre : '@' ∉ pre) (hT2 : 2 ≤ T.length)
    (hT : T.all (fun c => !isWS c) = true)
    (he0 : e ≠ []) (he : e.all (fun c => !isWS c) = true)
    (hb0 : bad ≠ []) (hb : bad.all (fun c => !isWS c) = true)
    (hb1 : (⟨bad⟩ : String) ≠ "Function") (hb2 : (⟨bad⟩ : String) ≠ "Arg") :
    parseLoopF (n + 1) ⟨pre ++ '@' :: afterAt T e bad, false⟩ m
      = .error .reportFormatError := by
  have hHdr := parseLoopF_header n m pre T e bad hpre hT2 hT he0 he
  have hBad := argLoopF_bad_end ['\n'] bad [] [] (bad.length + 1 + 1)
    (by decide) hb0 hb rfl hb1 hb2 (by omega)
  simp only [List.cons_append, List.nil_append, List.append_nil] at hBad
  rw [hHdr, hBad]

/-- parseLoopF_badBlock for a block whose Function keyword was consumed by
the previous block's argument-line loop. -/
theorem parseLoopF_blockTailBad (n : Nat) (m : ReportTable) (f e bad : List Char)
    (hf : f.all (fun c => !isWS c) = true)
    (he0 : e ≠ []) (he : e.all (fun c => !isWS c) = true)
    (hb0 : bad ≠ []) (hb : bad.all (fun c => !isWS c) = true)
    (hb1 : (⟨bad⟩ : String) ≠ "Function") (hb2 : (⟨bad⟩ : String) ≠ "Arg") :
    parseLoopF (n + 1) ⟨blockTail f e bad, false⟩ m
      = .error .reportFormatError := by
  have hT : (f ++ [')', ':']).all (fun c => !isWS c) = true := by
    simp only [List.all_append, Bool.and_eq_true]
    exact ⟨hf, by decide⟩
  have hT2 : 2 ≤ (f ++ [')', ':']).length := by
    simp [List.length_append]
  have h := parseLoopF_badBlock n m [' ', 'x', ' ', '('] (f ++ [')', ':']) e bad
    (by decide) hT2 hT he0 he hb0 hb hb1 hb2
  simp only [List.cons_append, List.nil_append] at h
  simpa only [blockTail] using h

theorem renderBlock1_length_pos (f e : List Char)
    (args : List (List Char × List Char)) (rest : List Char) :
    0 < (renderBlock1 f e args rest).length := by
  simp [renderBlock1]

theorem renderBlock1_length_big (f e : List Char)
    (args : List (List Char × List Char)) (rest : List Char) :
    13 ≤ (renderBlock1 f e args rest).length := by
  simp only [renderBlock1, blockTail, afterAt, List.length_cons,
    List.length_append]
  omega

theorem tableInsert_overwrite (k : String) (v1 v2 : KernelInfo) :
    tableInsert [(k, v1)] k v2 = [(k, v2)] := by
  simp [tableInsert]

/-! ### The claims -/

/-- C1: for every report containing exactly one function block with
function name F (any whitespace-free name), overall memory-effect tag E
(any nonempty whitespace-free token), and argument lines giving the list
[(0, ReadOnly), (2, ReadWrite)], parsing yields a table with exactly one
entry, keyed by F, whose funcName equals F, whose memoryEffect equals E,
and whose pointerArgumentEffects equals [(0, ReadOnly), (2, ReadWrite)] in
that order. -/
theorem C1_round_trip (f e : List Char)
    (hf : f.all (fun c => !isWS c) = true)
    (he0 : e ≠ []) (he : e.all (fun c => !isWS c) = true) :
    MemRedAnalysisParser true
        ⟨renderBlock1 f e
          [("0".data, "ReadOnly".data), ("2".data, "ReadWrite".data)] []⟩
      = .ok [((⟨f⟩ : String),
          ⟨⟨f⟩, ⟨e⟩, [(0, "ReadOnly"), (2, "ReadWrite")]⟩)] := by
  show parseLoopF
      ((renderBlock1 f e
        [("0".data, "ReadOnly".data), ("2".data, "ReadWrite".data)] []).length + 1)
      ⟨renderBlock1 f e
        [("0".data, "ReadOnly".data), ("2".data, "ReadWrite".data)] [], false⟩ []
      = _
  rw [parseLoopF_renderBlock _ [] f e
    [("0".data, "ReadOnly".data), ("2".data, "ReadWrite".data)] [] ⟨[], true⟩
    hf he0 he (by decide)
    (fun fuel2 acc2 w2 h2 hw2 => by
      rw [List.append_nil]
      exact argLoopF_ws_end w2 acc2 fuel2 hw2 h2)]
  rw [parseLoopF_pos_failed _ _ _ (renderBlock1_length_pos f e _ _)]
  rw [tableInsert_nil]
  rfl

/-- C4: for every report containing two function blocks that share the
same function name, parsing yields a table with exactly one entry under
that name, and that entry's fields (memoryEffect and
pointerArgumentEffects) equal the second block's data; the duplicate key
is not reported as an error. -/
theorem C4_last_write_wins (f e1 e2 : List Char)
    (hf : f.all (fun c => !isWS c) = true)
    (he10 : e1 ≠ []) (he1 : e1.all (fun c => !isWS c) = true)
    (he20 : e2 ≠ []) (he2 : e2.all (fun c => !isWS c) = true) :
    MemRedAnalysisParser true
        ⟨renderBlock1 f e1 [("0".data, "ReadOnly".data)]
          (renderBlock1 f e2 [("1".data, "ReadWrite".data)] [])⟩
      = .ok [((⟨f⟩ : String), ⟨⟨f⟩, ⟨e2⟩, [(1, "ReadWrite")]⟩)] := by
  show parseLoopF
      ((renderBlock1 f e1 [("0".data, "ReadOnly".data)]
        (renderBlock1 f e2 [("1".data, "ReadWrite".data)] [])).length + 1)
      ⟨renderBlock1 f e1 [("0".data, "ReadOnly".data)]
        (renderBlock1 f e2 [("1".data, "ReadWrite".data)] []), false⟩ []
      = _
  rw [parseLoopF_renderBlock _ [] f e1 [("0".data, "ReadOnly".data)]
    (renderBlock1 f e2 [("1".data, "ReadWrite".data)] [])
    ⟨blockTail f e2 (argsRender [("1".data, "ReadWrite".data)] ++ []), false⟩
    hf he10 he1 (by decide)
    (fun fuel2 acc2 w2 h2 hw2 =>
      argLoopF_function_end w2
        (blockTail f e2 (argsRender [("1".data, "ReadWrite".data)] ++ []))
        acc2 fuel2 hw2 (blockTail_tw _ _ _) h2)]
  obtain ⟨k, hk⟩ : ∃ k,
      (renderBlock1 f e1 [("0".data, "ReadOnly".data)]
        (renderBlock1 f e2 [("1".data, "ReadWrite".data)] [])).length = k + 1 := by
    cases h : (renderBlock1 f e1 [("0".data, "ReadOnly".data)]
        (renderBlock1 f e2 [("1".data, "ReadWrite".data)] [])).length with
    | zero =>
      have := renderBlock1_length_pos f e1 [("0".data, "ReadOnly".data)]
        (renderBlock1 f e2 [("1".data, "ReadWrite".data)] [])
      omega
    | succ k => exact ⟨k, rfl⟩
  have hk2 : 0 < k := by
    have := renderBlock1_length_big f e1 [("0".data, "ReadOnly".data)]
      (renderBlock1 f e2 [("1".data, "ReadWrite".data)] [])
    omega
  rw [hk]
  rw [parseLoopF_blockTail k _ f e2 [("1".data, "ReadWrite".data)] [] ⟨[], true⟩
    hf he20 he2 (by decide)
    (fun fuel2 acc2 w2 h2 hw2 => by
      rw [List.append_nil]
      exact argLoopF_ws_end w2 acc2 fuel2 hw2 h2)]
  rw [parseLoopF_pos_failed k _ _ hk2]
  rw [tableInsert_nil, tableInsert_overwrite]
  rfl

/-- Witness for C4 at F = foo, E1 = ArgMemOnly, E2 = Other. -/
theorem C4_last_write_wins_witness :
    ("foo".data.all (fun c => !isWS c) = true) ∧
    ("ArgMemOnly".data ≠ [] ∧ "Other".data ≠ []) ∧
    MemRedAnalysisParser true
        ⟨renderBlock1 "foo".data "ArgMemOnly".data [("0".data, "ReadOnly".data)]
          (renderBlock1 "foo".data "Other".data [("1".data, "ReadWrite".data)] [])⟩
      = .ok [("foo", ⟨"foo", "Other", [(1, "ReadWrite")]⟩)] :=
  ⟨by decide, ⟨by decide, by decide⟩,
    C4_last_write_wins "foo".data "ArgMemOnly".data "Other".data
      (by decide) (by decide) (by decide) (by decide) (by decide)⟩

/-- Witness for C1 at F = foo, E = ArgMemOnly. -/
theorem C1_round_trip_witness :
    ("foo".data.all (fun c => !isWS c) = true) ∧
    ("ArgMemOnly".data ≠ []) ∧
    ("ArgMemOnly".data.all (fun c => !isWS c) = true) ∧
    MemRedAnalysisParser true
        ⟨renderBlock1 "foo".data "ArgMemOnly".data
          [("0".data, "ReadOnly".data), ("2".data, "ReadWrite".data)] []⟩
      = .ok [("foo", ⟨"foo", "ArgMemOnly", [(0, "ReadOnly"), (2, "ReadWrite")]⟩)] :=
  ⟨by decide, by decide, by decide,
    C1_round_trip "foo".data "ArgMemOnly".data (by decide) (by decide) (by decide)⟩

/-- C10: for every report in which the whitespace-delimited token following
an at sign is exactly 2 characters long, parsing does not fail: it produces
a table entry keyed by the empty string, whose funcName is the empty
string, with the subsequently parsed memory effect and argument list
attached to it. -/
theorem C10_two_char_token (pre : List Char) (c1 c2 : Char) (e : List Char)
    (hpre : '@' ∉ pre) (hc1 : isWS c1 = false) (hc2 : isWS c2 = false)
    (he0 : e ≠ []) (he : e.all (fun c => !isWS c) = true) :
    MemRedAnalysisParser true
        ⟨pre ++ '@' :: afterAt [c1, c2] e
          (argsRender [("0".data, "ReadOnly".data)] ++ [])⟩
      = .ok [("", ⟨"", ⟨e⟩, [(0, "ReadOnly")]⟩)] := by
  show parseLoopF
      ((pre ++ '@' :: afterAt [c1, c2] e
        (argsRender [("0".data, "ReadOnly".data)] ++ [])).length + 1)
      ⟨pre ++ '@' :: afterAt [c1, c2] e
        (argsRender [("0".data, "ReadOnly".data)] ++ []), false⟩ []
      = _
  rw [parseLoopF_block_tok _ [] pre [c1, c2] e
    [("0".data, "ReadOnly".data)] [] ⟨[], true⟩ hpre (by simp)
    (by simp [List.all_cons, hc1, hc2]) he0 he (by decide)
    (fun fuel2 acc2 w2 hf2 hw2 => by
      rw [List.append_nil]
      exact argLoopF_ws_end w2 acc2 fuel2 hw2 hf2)]
  rw [parseLoopF_pos_failed _ _ _
    (by simp only [List.length_append, List.length_cons]; omega)]
  rw [tableInsert_nil]
  rfl

/-- Witness for C10 with token the two characters close-paren colon. -/
theorem C10_two_char_token_witness :
    ('@' ∉ "Function x (".data) ∧
    MemRedAnalysisParser true
        ⟨"Function x (".data ++ '@' :: afterAt [')', ':'] "ArgMemOnly".data
          (argsRender [("0".data, "ReadOnly".data)] ++ [])⟩
      = .ok [("", ⟨"", "ArgMemOnly", [(0, "ReadOnly")]⟩)] :=
  ⟨by decide,
    C10_two_char_token "Function x (".data ')' ':' "ArgMemOnly".data
      (by decide) (by decide) (by decide) (by decide) (by decide)⟩

/-- C7: for every report in which the whitespace-delimited token read after
an at sign is shorter than 2 characters, parsing fails with a
ReportFormatError (the source throws from the erase call); for tokens of
length at least 2, exactly the trailing 2 characters are stripped to form
the table key. -/
theorem C7_name_token (pre T e : List Char)
    (hpre : '@' ∉ pre) (hT0 : T ≠ [])
    (hT : T.all (fun c => !isWS c) = true)
    (he0 : e ≠ []) (he : e.all (fun c => !isWS c) = true) :
    (T.length < 2 →
      MemRedAnalysisParser true ⟨pre ++ '@' :: afterAt T e []⟩
        = .error .reportFormatError) ∧
    (2 ≤ T.length →
      MemRedAnalysisParser true ⟨pre ++ '@' :: afterAt T e []⟩
        = .ok [((⟨T.take (T.length - 2)⟩ : String),
            ⟨⟨T.take (T.length - 2)⟩, ⟨e⟩, []⟩)]) := by
  constructor
  · intro h
    show parseLoopF ((pre ++ '@' :: afterAt T e []).length + 1)
      ⟨pre ++ '@' :: afterAt T e [], false⟩ [] = _
    have hScan := scanAt_eq pre (afterAt T e []) hpre
    have hTk := readToken_eq [] T
      ('\n' :: 'M' :: 'e' :: 'm' :: 'o' :: 'r' :: 'y' :: ' ' ::
        'E' :: 'f' :: 'f' :: 'e' :: 'c' :: 't' :: ':' :: ' ' :: (e ++ ('\n' :: [])))
      (by decide) hT0 hT (tw_ws_cons '\n' _ (by decide))
    simp only [List.nil_append] at hTk
    simp only [afterAt] at hScan
    simp only [parseLoopF, afterAt, hScan, hTk]
    rw [if_neg (show ¬(false = true) by decide),
      if_neg (show ¬(false = true) by decide),
      if_pos (show (⟨T⟩ : String).length < 2 from h)]
  · intro h2
    show parseLoopF ((pre ++ '@' :: afterAt T e []).length + 1)
      ⟨pre ++ '@' :: afterAt T e [], false⟩ [] = _
    have hb := parseLoopF_block_tok ((pre ++ '@' :: afterAt T e []).length)
      [] pre T e [] [] ⟨[], true⟩ hpre h2 hT he0 he (by decide)
      (fun fuel2 acc2 w2 hf2 hw2 => by
        rw [List.append_nil]
        exact argLoopF_ws_end w2 acc2 fuel2 hw2 hf2)
    simp only [argsRender_nil, List.nil_append, List.map_nil] at hb
    rw [hb, parseLoopF_pos_failed _ _ _
      (by simp only [List.length_append, List.length_cons]; omega),
      tableInsert_nil]

/-- Witness for C7: a one-character token aborts the parse, a
three-character token is stripped to its first character. -/
theorem C7_name_token_witness :
    MemRedAnalysisParser true
        ⟨"xy(".data ++ '@' :: afterAt "y".data "ArgMemOnly".data []⟩
      = .error .reportFormatError ∧
    MemRedAnalysisParser true
        ⟨"xy(".data ++ '@' :: afterAt "f):".data "ArgMemOnly".data []⟩
      = .ok [("f", ⟨"f", "ArgMemOnly", []⟩)] :=
  ⟨(C7_name_token "xy(".data "y".data "ArgMemOnly".data
      (by decide) (by decide) (by decide) (by decide) (by decide)).1 (by decide),
   (C7_name_token "xy(".data "f):".data "ArgMemOnly".data
      (by decide) (by decide) (by decide) (by decide) (by decide)).2 (by decide)⟩

/-- C5: for every report in which, at an argument-line position, the next
token is neither Arg nor Function (and input is not at end-of-stream),
parsing fails with a ReportFormatError and no table — not even a partial
one containing the blocks parsed so far — is produced.  Here a complete
first block precedes the offending token. -/
theorem C5_malformed_atomic (f1 e1 f2 e2 bad : List Char)
    (hf1 : f1.all (fun c => !isWS c) = true)
    (he10 : e1 ≠ []) (he11 : e1.all (fun c => !isWS c) = true)
    (hf2 : f2.all (fun c => !isWS c) = true)
    (he20 : e2 ≠ []) (he21 : e2.all (fun c => !isWS c) = true)
    (hb0 : bad ≠ []) (hb : bad.all (fun c => !isWS c) = true)
    (hb1 : (⟨bad⟩ : String) ≠ "Function") (hb2 : (⟨bad⟩ : String) ≠ "Arg") :
    MemRedAnalysisParser true
        ⟨renderBlock1 f1 e1 [("0".data, "ReadOnly".data)]
          ('F' :: 'u' :: 'n' :: 'c' :: 't' :: 'i' :: 'o' :: 'n' ::
            blockTail f2 e2 bad)⟩
      = .error .reportFormatError := by
  show parseLoopF
      ((renderBlock1 f1 e1 [("0".data, "ReadOnly".data)]
        ('F' :: 'u' :: 'n' :: 'c' :: 't' :: 'i' :: 'o' :: 'n' ::
          blockTail f2 e2 bad)).length + 1)
      ⟨renderBlock1 f1 e1 [("0".data, "ReadOnly".data)]
        ('F' :: 'u' :: 'n' :: 'c' :: 't' :: 'i' :: 'o' :: 'n' ::
          blockTail f2 e2 bad), false⟩ []
      = _
  rw [parseLoopF_renderBlock _ [] f1 e1 [("0".data, "ReadOnly".data)]
    ('F' :: 'u' :: 'n' :: 'c' :: 't' :: 'i' :: 'o' :: 'n' ::
      blockTail f2 e2 bad)
    ⟨blockTail f2 e2 bad, false⟩ hf1 he10 he11 (by decide)
    (fun fuel2 acc2 w2 h2 hw2 =>
      argLoopF_function_end w2 (blockTail f2 e2 bad) acc2 fuel2 hw2
        (blockTail_tw _ _ _) h2)]
  obtain ⟨k, hk⟩ : ∃ k,
      (renderBlock1 f1 e1 [("0".data, "ReadOnly".data)]
        ('F' :: 'u' :: 'n' :: 'c' :: 't' :: 'i' :: 'o' :: 'n' ::
          blockTail f2 e2 bad)).length = k + 1 := by
    cases h : (renderBlock1 f1 e1 [("0".data, "ReadOnly".data)]
        ('F' :: 'u' :: 'n' :: 'c' :: 't' :: 'i' :: 'o' :: 'n' ::
          blockTail f2 e2 bad)).length with
    | zero =>
      have := renderBlock1_length_pos f1 e1 [("0".data, "ReadOnly".data)]
        ('F' :: 'u' :: 'n' :: 'c' :: 't' :: 'i' :: 'o' :: 'n' ::
          blockTail f2 e2 bad)
      omega
    | succ k => exact ⟨k, rfl⟩
  rw [hk]
  exact parseLoopF_blockTailBad k _ f2 e2 bad hf2 he20 he21 hb0 hb hb1 hb2

/-- Witness for C5 with the offending token Bogus. -/
theorem C5_malformed_atomic_witness :
    ((⟨"Bogus".data⟩ : String) ≠ "Function" ∧
      (⟨"Bogus".data⟩ : String) ≠ "Arg") ∧
    MemRedAnalysisParser true
        ⟨renderBlock1 "f".data "ArgMemOnly".data [("0".data, "ReadOnly".data)]
          ('F' :: 'u' :: 'n' :: 'c' :: 't' :: 'i' :: 'o' :: 'n' ::
            blockTail "g".data "ArgMemOnly".data "Bogus".data)⟩
      = .error .reportFormatError :=
  ⟨⟨by decide, by decide⟩,
    C5_malformed_atomic "f".data "ArgMemOnly".data "g".data "ArgMemOnly".data
      "Bogus".data (by decide) (by decide) (by decide) (by decide) (by decide)
      (by decide) (by decide) (by decide) (by decide) (by decide)⟩

/-- C9 counterexample: a successful parse whose single KernelInfo carries
the argument index 0 twice, so the argumentIndex values in
pointerArgumentEffects are not pairwise distinct. -/
theorem C9_dup_index_cex :
    MemRedAnalysisParser true
        "Function x (@f): Memory Effect: ArgMemOnly\nArg #0:\tEffect: ReadOnly  Capture: No\nArg #0:\tEffect: ReadWrite  Capture: No\n"
      = .ok [("f", ⟨"f", "ArgMemOnly", [(0, "ReadOnly"), (0, "ReadWrite")]⟩)] ∧
    ¬ (([(0, "ReadOnly"), (0, "ReadWrite")] : List (Int × String)).map
        Prod.fst).Nodup :=
  ⟨rfl, by decide⟩

/-- C9 amended: the argumentIndex values stored in a parsed KernelInfo are
exactly the int-narrowed index values of the block's Arg lines in order;
when every such value is below 2^31 — so that size_t extraction succeeds
and the int narrowing is the identity — and the values are pairwise
distinct, the stored indices are pairwise distinct.  The parser itself
enforces no uniqueness. -/
theorem C9_index_uniqueness_amended (f e : List Char)
    (args : List (List Char × List Char))
    (hf : f.all (fun c => !isWS c) = true)
    (he0 : e ≠ []) (he : e.all (fun c => !isWS c) = true)
    (hargs : wfArgs args)
    (hsmall : ∀ a ∈ args, digitsVal a.1 < 2147483648)
    (hnd : (args.map (fun a => digitsVal a.1)).Nodup) :
    MemRedAnalysisParser true ⟨renderBlock1 f e args []⟩
      = .ok [((⟨f⟩ : String),
          ⟨⟨f⟩, ⟨e⟩, args.map (fun a => (narrowToInt (digitsVal a.1), (⟨a.2⟩ : String)))⟩)] ∧
    ((args.map (fun a => (narrowToInt (digitsVal a.1), (⟨a.2⟩ : String)))).map
        Prod.fst).Nodup := by
  constructor
  · show parseLoopF ((renderBlock1 f e args []).length + 1)
      ⟨renderBlock1 f e args [], false⟩ [] = _
    rw [parseLoopF_renderBlock _ [] f e args [] ⟨[], true⟩ hf he0 he hargs
      (fun fuel2 acc2 w2 h2 hw2 => by
        rw [List.append_nil]
        exact argLoopF_ws_end w2 acc2 fuel2 hw2 h2)]
    rw [parseLoopF_pos_failed _ _ _ (renderBlock1_length_pos f e _ _)]
    rw [tableInsert_nil]
  · have h1 : (args.map
        (fun a => (narrowToInt (digitsVal a.1), (⟨a.2⟩ : String)))).map Prod.fst
        = args.map (fun a => ((digitsVal a.1 : Nat) : Int)) := by
      rw [List.map_map]
      exact List.map_congr_left (fun a ha => narrowToInt_small _ (hsmall a ha))
    have h2 : args.map (fun a => ((digitsVal a.1 : Nat) : Int))
        = (args.map (fun a => digitsVal a.1)).map (fun n : Nat => (n : Int)) := by
      rw [List.map_map]
      rfl
    rw [h1, h2]
    exact hnd.map Nat.cast_injective

/-- Witness for C9 amended with two distinct small indices. -/
theorem C9_index_uniqueness_amended_witness :
    (([("0".data, "ReadOnly".data), ("2".data, "ReadWrite".data)].map
        (fun a => digitsVal a.1)).Nodup) ∧
    MemRedAnalysisParser true
        ⟨renderBlock1 "foo".data "ArgMemOnly".data
          [("0".data, "ReadOnly".data), ("2".data, "ReadWrite".data)] []⟩
      = .ok [("foo", ⟨"foo", "ArgMemOnly", [(0, "ReadOnly"), (2, "ReadWrite")]⟩)] ∧
    (([(0, "ReadOnly"), (2, "ReadWrite")] : List (Int × String)).map
        Prod.fst).Nodup :=
  ⟨by decide,
    (C9_index_uniqueness_amended "foo".data "ArgMemOnly".data
      [("0".data, "ReadOnly".data), ("2".data, "ReadWrite".data)]
      (by decide) (by decide) (by decide) (by decide) (by decide)
      (by decide)).1,
    (C9_index_uniqueness_amended "foo".data "ArgMemOnly".data
      [("0".data, "ReadOnly".data), ("2".data, "ReadWrite".data)]
      (by decide) (by decide) (by decide) (by decide) (by decide)
      (by decide)).2⟩

/-- C3 counterexample: on an unopenable file the constructor returns an
empty table with no error of any kind, rather than failing with a
ReportOpenError. -/
theorem C3_missing_file_cex :
    MemRedAnalysisParser false "Function x (@f): Memory Effect: ArgMemOnly\n"
      = .ok [] ∧
    MemRedAnalysisParser false "Function x (@f): Memory Effect: ArgMemOnly\n"
      ≠ .error .reportOpenError :=
  ⟨rfl, fun h => nomatch h⟩

/-- C3 amended: for every path naming a file that is missing or unreadable,
the constructor completes normally with an empty table (the failed stream
makes the while loop exit immediately), and annotation then proceeds, each
node failing its lookup with an UnknownKernelError. -/
theorem C3_missing_file_amended (content : String) (mem : Memory)
    (node : KernelNode) :
    MemRedAnalysisParser false content = .ok [] ∧
    analyzeGraph [] mem [node]
      = .error (.unknownKernelError node.funcName) := by
  constructor
  · exact parseLoopF_failed _ _ _
  · simp [analyzeGraph, analyzeGraphAux, annotateNode, tableLookup]

/-- Witness for C3 amended at a concrete content, memory and node. -/
theorem C3_missing_file_amended_witness :
    MemRedAnalysisParser false "Function x (@f): Memory Effect: ArgMemOnly\n"
      = .ok [] ∧
    analyzeGraph [] ⟨id, fun _ => 0⟩ [⟨"foo", fun _ => 0⟩]
      = .error (.unknownKernelError "foo") :=
  C3_missing_file_amended "Function x (@f): Memory Effect: ArgMemOnly\n"
    ⟨id, fun _ => 0⟩ ⟨"foo", fun _ => 0⟩

/-- C2 counterexample: with the table mapping foo to pointerArgumentEffects
[(3, ReadOnly)] and a single node resolving to foo whose raw slot 3 holds a
pointer (value 500) to the 4-byte integer 42 — the exact scenario of the
claim — annotate records the once-dereferenced pointer value 500, not the
twice-dereferenced integer 42: line 117 of the source streams
the int* obtained from a single dereference of the slot. -/
theorem C2_annotate_value_cex :
    (let mem : Memory :=
      ⟨fun a => if a = 1003 then 500 else 0, fun a => if a = 500 then 42 else 0⟩
     let node : KernelNode := ⟨"foo", fun i => if i = 3 then 1003 else 0⟩
     mem.loadInt (mem.loadPtr (node.kernelParams 3)) = 42 ∧
     analyzeGraph [("foo", ⟨"foo", "ArgMemOnly", [(3, "ReadOnly")]⟩)] mem [node]
       = .ok [⟨0, "foo", [(3, "ReadOnly", 500)]⟩] ∧
     analyzeGraph [("foo", ⟨"foo", "ArgMemOnly", [(3, "ReadOnly")]⟩)] mem [node]
       ≠ .ok [⟨0, "foo", [(3, "ReadOnly", 42)]⟩]) :=
  ⟨by decide, rfl,
    fun h => absurd (Except.ok.inj h) (by decide)⟩

/-- C2 amended: given a table mapping foo to a KernelInfo with
pointerArgumentEffects [(3, ReadOnly)] and a single node resolving to foo
whose raw argument slot at position 3 holds a pointer p to a pointer to the
4-byte integer 42, annotate produces exactly one node report containing the
per-argument entry (index = 3, effect = ReadOnly, value = p): the slot is
reinterpreted as pointer-to-pointer-to-integer and dereferenced exactly
once, recording the pointer so read; the pointed-to integer is never
loaded. -/
theorem C2_annotate_value_amended (e : String) (mem : Memory)
    (node : KernelNode) (p : Nat)
    (h1 : node.funcName = "foo")
    (h2 : mem.loadPtr (node.kernelParams 3) = p)
    (_h3 : mem.loadInt p = 42) :
    analyzeGraph [("foo", ⟨"foo", e, [(3, "ReadOnly")]⟩)] mem [node]
      = .ok [⟨0, "foo", [(3, "ReadOnly", p)]⟩] := by
  simp [analyzeGraph, analyzeGraphAux, annotateNode, tableLookup, h1, h2]

/-- Witness for C2 amended with a concrete two-level memory holding the
pointer 500 to the integer 42. -/
theorem C2_annotate_value_amended_witness :
    (let mem : Memory :=
      ⟨fun a => if a = 1003 then 500 else 0, fun a => if a = 500 then 42 else 0⟩
     let node : KernelNode := ⟨"foo", fun i => if i = 3 then 1003 else 0⟩
     node.funcName = "foo" ∧
     mem.loadPtr (node.kernelParams 3) = 500 ∧
     mem.loadInt 500 = 42 ∧
     analyzeGraph [("foo", ⟨"foo", "ArgMemOnly", [(3, "ReadOnly")]⟩)] mem [node]
       = .ok [⟨0, "foo", [(3, "ReadOnly", 500)]⟩]) :=
  ⟨rfl, by decide, by decide,
    C2_annotate_value_amended "ArgMemOnly" _ _ 500 rfl (by decide) (by decide)⟩

/-- C6: for every graph whose node list contains a node whose resolved
function name has no entry in the table (all earlier nodes resolving
successfully), annotate fails at that node with an UnknownKernelError
carrying the unresolved name. -/
theorem C6_unknown_kernel (table : ReportTable) (mem : Memory)
    (pre post : List KernelNode) (node : KernelNode)
    (hpre : ∀ n ∈ pre, tableLookup table n.funcName ≠ none)
    (hnode : tableLookup table node.funcName = none) :
    analyzeGraph table mem (pre ++ node :: post)
      = .error (.unknownKernelError node.funcName) := by
  have main : ∀ (pre2 : List KernelNode) (i : Nat),
      (∀ n ∈ pre2, tableLookup table n.funcName ≠ none) →
      analyzeGraphAux table mem i (pre2 ++ node :: post)
        = .error (.unknownKernelError node.funcName) := by
    intro pre2
    induction pre2 with
    | nil =>
      intro i _
      simp [analyzeGraphAux, annotateNode, hnode]
    | cons p ps ih =>
      intro i hpre2
      obtain ⟨v, hv⟩ :=
        Option.ne_none_iff_exists.mp (hpre2 p (List.mem_cons_self p ps))
      have hrec := ih (i + 1) (fun n hn => hpre2 n (List.mem_cons_of_mem p hn))
      simp only [List.cons_append, analyzeGraphAux, annotateNode, ← hv,
        List.append_eq, hrec]
  exact main pre 0 hpre

/-- Witness for C6: a single node resolving to foo with a table containing
only bar. -/
theorem C6_unknown_kernel_witness :
    tableLookup [("bar", ⟨"bar", "ArgMemOnly", []⟩)] "foo" = none ∧
    analyzeGraph [("bar", ⟨"bar", "ArgMemOnly", []⟩)] ⟨id, fun _ => 0⟩
        ([] ++ (⟨"foo", fun _ => 0⟩ : KernelNode) :: [])
      = .error (.unknownKernelError "foo") :=
  ⟨rfl,
    C6_unknown_kernel [("bar", ⟨"bar", "ArgMemOnly", []⟩)] ⟨id, fun _ => 0⟩
      [] [] ⟨"foo", fun _ => 0⟩ (by simp) rfl⟩

/-- C8 counterexample: on a report whose single block carries two argument
lines the source parser succeeds with both pairs, while a parser that
consumes the token sequence the claim describes (one extra discarded token
per argument line) aborts the same report with a format error — so the
source does not consume what the claim says. -/
theorem C8_arg_line_cex :
    MemRedAnalysisParser true
        "Function x (@f): Memory Effect: ArgMemOnly\nArg #0:\tEffect: ReadOnly  Capture: No\nArg #1:\tEffect: ReadWrite  Capture: No\n"
      = .ok [("f", ⟨"f", "ArgMemOnly", [(0, "ReadOnly"), (1, "ReadWrite")]⟩)] ∧
    MemRedAnalysisParserClaimed true
        "Function x (@f): Memory Effect: ArgMemOnly\nArg #0:\tEffect: ReadOnly  Capture: No\nArg #1:\tEffect: ReadWrite  Capture: No\n"
      = .error .reportFormatError :=
  ⟨rfl, rfl⟩

/-- C8 amended: after the Arg keyword, on an index whose value fits in
size_t (so extraction succeeds), the parser consumes exactly two single
characters, an unsigned integer argument index, two discarded
whitespace-delimited tokens, one token recorded as the pointer-argument
effect tag, and two further discarded tokens, the second of which is the
yes/no value — no additional token — appending (index narrowed from size_t
to int, effectTag) to the current block's argument list. -/
theorem C8_arg_line_amended (c1 c2 : Char)
    (d w1 t1 w2 t2 w3 e w4 t4 w5 t5 rest : List Char)
    (hd0 : d ≠ []) (hd : d.all Char.isDigit = true)
    (hdv : digitsVal d < 18446744073709551616)
    (hw10 : w1 ≠ []) (hw1 : w1.all isWS = true)
    (hw20 : w2 ≠ []) (hw2 : w2.all isWS = true)
    (hw30 : w3 ≠ []) (hw3 : w3.all isWS = true)
    (hw40 : w4 ≠ []) (hw4 : w4.all isWS = true)
    (hw50 : w5 ≠ []) (hw5 : w5.all isWS = true)
    (ht10 : t1 ≠ []) (ht1 : t1.all (fun c => !isWS c) = true)
    (ht20 : t2 ≠ []) (ht2 : t2.all (fun c => !isWS c) = true)
    (he0 : e ≠ []) (he : e.all (fun c => !isWS c) = true)
    (ht40 : t4 ≠ []) (ht4 : t4.all (fun c => !isWS c) = true)
    (ht50 : t5 ≠ []) (ht5 : t5.all (fun c => !isWS c) = true)
    (hrest : rest.takeWhile (fun c => !isWS c) = []) :
    argLineBody ⟨c1 :: c2 ::
      (d ++ (w1 ++ (t1 ++ (w2 ++ (t2 ++ (w3 ++ (e ++ (w4 ++ (t4 ++
        (w5 ++ (t5 ++ rest))))))))))), false⟩
      = ((narrowToInt (digitsVal d), ⟨e⟩), ⟨rest, false⟩) := by
  have hNat := readNat_eq [] d
    (w1 ++ (t1 ++ (w2 ++ (t2 ++ (w3 ++ (e ++ (w4 ++ (t4 ++
      (w5 ++ (t5 ++ rest))))))))))
    (by decide) hd0 hd hdv (tw_digit_of_ws_head w1 _ hw10 hw1)
  simp only [List.nil_append] at hNat
  have h1 := readToken_eq w1 t1
    (w2 ++ (t2 ++ (w3 ++ (e ++ (w4 ++ (t4 ++ (w5 ++ (t5 ++ rest))))))))
    hw1 ht10 ht1 (tw_tok_of_ws_head w2 _ hw20 hw2)
  have h2 := readToken_eq w2 t2
    (w3 ++ (e ++ (w4 ++ (t4 ++ (w5 ++ (t5 ++ rest))))))
    hw2 ht20 ht2 (tw_tok_of_ws_head w3 _ hw30 hw3)
  have h3 := readToken_eq w3 e
    (w4 ++ (t4 ++ (w5 ++ (t5 ++ rest))))
    hw3 he0 he (tw_tok_of_ws_head w4 _ hw40 hw4)
  have h4 := readToken_eq w4 t4
    (w5 ++ (t5 ++ rest))
    hw4 ht40 ht4 (tw_tok_of_ws_head w5 _ hw50 hw5)
  have h5 := readToken_eq w5 t5 rest hw5 ht50 ht5 hrest
  simp only [argLineBody, read1_eq, hNat, h1, h2, h3, h4, h5]

/-- Witness for C8 amended on a fully concrete argument line. -/
theorem C8_arg_line_amended_witness :
    argLineBody ⟨' ' :: '#' ::
      ("7".data ++ ([' '] ++ (":".data ++ ([' '] ++ ("Effect:".data ++
        ([' '] ++ ("ReadOnly".data ++ ([' '] ++ ("Capture:".data ++
        ([' '] ++ ("No".data ++ "\nArg".data))))))))))), false⟩
      = ((7, "ReadOnly"), ⟨"\nArg".data, false⟩) :=
  C8_arg_line_amended ' ' '#' "7".data [' '] ":".data [' '] "Effect:".data
    [' '] "ReadOnly".data [' '] "Capture:".data [' '] "No".data "\nArg".data
    (by decide) (by decide) (by decide) (by decide) (by decide) (by decide)
    (by decide) (by decide) (by decide) (by decide) (by decide) (by decide)
    (by decide) (by decide) (by decide) (by decide) (by decide) (by decide)
    (by decide) (by decide) (by decide) (by decide) (by decide) (by decide)

end CudaGraphTest
